import Mathlib

/-!
Verification of the feishu_tuiwen batch-deployment pipeline.

The development shallowly embeds the pure/decision logic of the three
source modules:

* `feishu_api.py`  — folder-name sanitisation, JSON payload decoding,
  per-project file download aggregation, bitable URL parsing, paginated
  record fetching, and the staging-table full refresh;
* `database.py`    — the staging→processing reconciliation queries and
  the row-update statements, modelled over in-memory lists of rows with
  MySQL's TRIM/filter/ordering semantics made explicit;
* `cron_deployment.py` — the per-record step of the file-download task.

Network and filesystem effects are abstracted as boolean oracles (the
outcome of one HTTP download, the outcome of one SQL update), everything
else is translated directly from the source.
-/

namespace Feishu

/-! ## String helpers

The embedding works on `String`/`List Char`.  `py_strip` is Python's
`str.strip()` (drops leading/trailing whitespace), `mysql_trim` is
MySQL's `TRIM(str)` (drops leading/trailing *space* characters only),
`chars_le` is lexicographic order on character lists (the order MySQL
uses for `ORDER BY` on these ASCII timestamp strings). -/

def py_strip (s : String) : String :=
  String.mk (((s.data.dropWhile Char.isWhitespace).reverse.dropWhile Char.isWhitespace).reverse)

def mysql_trim (s : String) : String :=
  String.mk (((s.data.dropWhile (· = ' ')).reverse.dropWhile (· = ' ')).reverse)

def chars_le : List Char → List Char → Bool
  | [], _ => true
  | _ :: _, [] => false
  | x :: xs, y :: ys =>
    if x = y then chars_le xs ys
    else decide (x < y)

def starts_with (s pre : String) : Bool :=
  pre.data.isPrefixOf s.data

/-! ## Folder-name sanitisation (`feishu_api.download_project_files`, lines 160-166)

```python
safe_submit_time = submit_time
for ch in [":", "/", "\\", "*", "?", "\"", "<", ">", "|", " "]:
    safe_submit_time = safe_submit_time.replace(ch, "_")
folder_name = f"{manju}_{safe_submit_time}"
```

Each pattern is a single character, so each `str.replace(ch, "_")` maps
every occurrence of that character to an underscore. -/

def illegal_chars : List Char := [':', '/', '\\', '*', '?', '"', '<', '>', '|', ' ']

def py_replace_char (s : String) (old : Char) : String :=
  String.mk (s.data.map fun c => if c = old then '_' else c)

def sanitize_submit_time (s : String) : String :=
  illegal_chars.foldl py_replace_char s

def folder_name (manju safe_submit_time : String) : String :=
  manju ++ "_" ++ safe_submit_time

/-! ## JSON values and payload decoding

`Json` is the result of a successful Python `json.loads`.  A payload
string's parse outcome is modelled as `Option Json` (`none` = the parse
raised).  `safe_json_loads` (`feishu_api.py` lines 135-144) is called by
`download_project_files` with a `str` argument only, so the modelled
branch is: return the parse result, or `[]` when the parse raised. -/

inductive Json where
  | null
  | bool (b : Bool)
  | num (n : Int)
  | str (s : String)
  | arr (elems : List Json)
  | obj (fields : List (String × Json))

/-- Python truthiness of a decoded JSON value. -/
def Json.truthy : Json → Bool
  | .null => false
  | .bool b => b
  | .num n => n != 0
  | .str s => s ≠ ""
  | .arr xs => !xs.isEmpty
  | .obj kvs => !kvs.isEmpty

/-- Embeds `item.get(k)` on a decoded JSON object (`none` when the key is
absent or the value is not an object). -/
def Json.getKey : Json → String → Option Json
  | .obj kvs, k => kvs.lookup k
  | _, _ => none

/-- Embeds `safe_json_loads` for a string argument: the parse result, or the
empty list when `json.loads` raised. -/
def safe_json_loads : Option Json → Json
  | none => .arr []
  | some j => j

/-- Python iteration (`for item in x`) over a decoded JSON value:
lists yield their elements, dicts their keys, strings their characters;
any other value raises `TypeError` (modelled as `Except.error`). -/
def py_iterate : Json → Except Unit (List Json)
  | .arr xs => .ok xs
  | .obj kvs => .ok (kvs.map fun kv => .str kv.1)
  | .str s => .ok (s.data.map fun c => .str (String.mk [c]))
  | _ => .error ()

/-! ## Per-project download loop (`feishu_api.download_project_files`, lines 147-228)

The outcome of one `download_file_from_feishu` call is an oracle
`dl : String → Json → Json → Bool` of the folder name, the `file_token`
value and the `name` value (everything the call's observable inputs are
built from, besides the fixed access token). -/

def Dl : Type := String → Json → Json → Bool

/-- One iteration of a download loop body: skip non-dict items, look up
`file_token` and `name` (`name` defaulting), attempt the download when
both are truthy, and drop the group's success flag on failure. -/
def attempt_file (dl : Dl) (folder defaultName : String) (success : Bool) (item : Json) : Bool :=
  match item with
  | .obj _ =>
    let file_token := (item.getKey "file_token").getD .null
    let name := (item.getKey "name").getD (.str defaultName)
    cond (file_token.truthy && name.truthy)
      (cond (dl folder file_token name) success false)
      success
  | _ => success

/-- A full download loop over one decoded payload list. -/
def download_group (dl : Dl) (folder defaultName : String) (files : List Json) : Bool :=
  files.foldl (attempt_file dl folder defaultName) true

/-- The well-formed `{file_token, name}` entries of a decoded payload
list: the (token, name) pairs the loop actually attempts to download. -/
def wellformed_entries (defaultName : String) (files : List Json) : List (Json × Json) :=
  files.filterMap fun item =>
    match item with
    | .obj _ =>
      let file_token := (item.getKey "file_token").getD .null
      let name := (item.getKey "name").getD (.str defaultName)
      cond (file_token.truthy && name.truthy) (some (file_token, name)) none
    | _ => none

/-- Embeds `download_project_files(manju, submit_time, zimu_data, miaoshu_data, token)`:
sanitise the submit time into a folder name, iterate the decoded subtitle
payload, then the decoded description payload, and report the aggregate
boolean.  A `TypeError` from iterating a non-iterable decode propagates
as `Except.error`. -/
def download_project_files (dl : Dl) (manju submit_time : String)
    (zimu_parsed miaoshu_parsed : Option Json) : Except Unit Bool := do
  let folder := folder_name manju (sanitize_submit_time submit_time)
  let zimu_files ← py_iterate (safe_json_loads zimu_parsed)
  let zimu_success := download_group dl folder "字幕.txt" zimu_files
  let miaoshu_files ← py_iterate (safe_json_loads miaoshu_parsed)
  let miaoshu_success := download_group dl folder "描述词.txt" miaoshu_files
  return zimu_success && miaoshu_success

/-! ## Database rows

`first_table` (staging) and `second_table` (processing), `database.py`
lines 51-73.  The two payload columns are nullable LONGTEXT, modelled as
`Option String`; the remaining columns are modelled as plain strings
(the rows written by this program never store NULL there).  Tables are
in-memory lists of rows. -/

structure StagingRow where
  zimu : Option String
  manju : String
  miaoshu : Option String
  leixing : String
  submit_time : String
deriving DecidableEq

structure ProcessingRow where
  zimu : String
  manju : String
  miaoshu : String
  leixing : String
  submit_time : String
  makevideo : Int
deriving DecidableEq

/-- Embeds `database.safe_value` restricted to the values read back from the
two tables (a string or SQL NULL). -/
def safe_value : Option String → String
  | none => ""
  | some s => s

/-- The SQL predicate `TRIM(col) != '' AND col IS NOT NULL` used by both
selection queries (`database.py` lines 132-133 and 161-162). -/
def payload_nonempty : Option String → Bool
  | none => false
  | some s => mysql_trim s != ""

/-- The `(类型, 漫剧名称)` natural-key join condition
`f.类型 = s.类型 AND f.漫剧名称 = s.漫剧名称`. -/
def key_match (f : StagingRow) (s : ProcessingRow) : Bool :=
  f.leixing == s.leixing && f.manju == s.manju

/-- Embeds `ORDER BY f.提交时间 DESC`: `a` sorts no later than `b` when `b`'s
submission timestamp is lexicographically at most `a`'s. -/
def desc_by_time (a b : StagingRow) : Prop :=
  chars_le b.submit_time.data a.submit_time.data = true

instance : DecidableRel desc_by_time := fun _ _ => instDecidableEqBool _ _

/-- Embeds `database.get_new_records_from_first_table(limit)`: staging rows with
no natural-key match in processing (LEFT JOIN … WHERE s.类型 IS NULL),
non-empty trimmed payloads, ordered by submission time descending,
capped by `LIMIT %s`. -/
def get_new_records_from_first_table
    (first : List StagingRow) (second : List ProcessingRow) (limit : Nat) : List StagingRow :=
  (List.insertionSort desc_by_time
    (first.filter fun f =>
      payload_nonempty f.zimu && payload_nonempty f.miaoshu
        && !(second.any fun s => key_match f s))).take limit

/-- Embeds `database.get_existing_records_from_first_table()`: the INNER JOIN of
staging with processing on the natural key (one output row per matching
processing row), with the same non-empty-payload filter, ordered by
submission time descending, uncapped. -/
def get_existing_records_from_first_table
    (first : List StagingRow) (second : List ProcessingRow) : List StagingRow :=
  List.insertionSort desc_by_time
    ((first.filter fun f => payload_nonempty f.zimu && payload_nonempty f.miaoshu).flatMap
      fun f => (second.filter fun s => key_match f s).map fun _ => f)

/-! ## Reconciliation updates (`database.py` lines 219-259, 286-307) -/

/-- One execution of
`UPDATE second_table SET 字幕分组/分镜=%s, 描述词=%s, 提交时间=%s, makevideo=0
 WHERE 类型=%s AND 漫剧名称=%s` for staging record `r`. -/
def apply_update (db : List ProcessingRow) (r : StagingRow) : List ProcessingRow :=
  db.map fun s =>
    if s.leixing == r.leixing && s.manju == r.manju then
      { s with zimu := safe_value r.zimu, miaoshu := safe_value r.miaoshu,
               submit_time := r.submit_time, makevideo := 0 }
    else s

/-- Embeds `database.update_existing_records(records)`: run the update statement
once per record, in list order. -/
def update_existing_records (records : List StagingRow) (db : List ProcessingRow) : List ProcessingRow :=
  records.foldl apply_update db

/-- Embeds `database.update_makevideo_status(manju, submit_time, status)`:
`UPDATE second_table SET makevideo=%s WHERE 漫剧名称=%s AND 提交时间=%s`
— keyed by title and submission time only, never by 类型. -/
def update_makevideo_status (db : List ProcessingRow) (manju submit_time : String) (status : Int) :
    List ProcessingRow :=
  db.map fun s =>
    if s.manju == manju && s.submit_time == submit_time then { s with makevideo := status }
    else s

/-! ## Staging full refresh (`feishu_api.fetch_feishu_data_to_first_table`, lines 356-423)

A fetched remote row after field extraction (`safe_value` of the four
mapped fields plus the formatted submission time); a missing/NULL/empty
field extracts to `""`. -/

structure FetchedRecord where
  zimu : String
  manju : String
  miaoshu : String
  leixing : String
  submit_time : String
deriving DecidableEq

def test_prefix : String := "测试漫剧"

/-- One execution of
`INSERT INTO first_table … ON DUPLICATE KEY UPDATE 字幕分组/分镜=VALUES(…),
 描述词=VALUES(…), 类型=VALUES(…), 提交时间=VALUES(…)`:
if a row with the same `(类型, 漫剧名称)` key exists, overwrite its
payload/category/time fields, otherwise append a fresh row. -/
def upsert_staging (db : List StagingRow) (r : FetchedRecord) : List StagingRow :=
  if db.any fun x => x.leixing == r.leixing && x.manju == r.manju then
    db.map fun x =>
      if x.leixing == r.leixing && x.manju == r.manju then
        { x with zimu := some r.zimu, miaoshu := some r.miaoshu,
                 leixing := r.leixing, submit_time := r.submit_time }
      else x
  else db ++ [⟨some r.zimu, r.manju, some r.miaoshu, r.leixing, r.submit_time⟩]

/-- The per-record body of the fetch loop: skip the record when the
title, subtitle payload or description payload extracted to empty,
otherwise upsert it. -/
def fetch_step (db : List StagingRow) (r : FetchedRecord) : List StagingRow :=
  if r.manju == "" || r.zimu == "" || r.miaoshu == "" then db else upsert_staging db r

/-- Embeds `feishu_api.fetch_feishu_data_to_first_table` after the records have
been fetched: `DELETE FROM first_table WHERE 漫剧名称 NOT LIKE '测试漫剧%'`
(keep only test-fixture rows), then fold the upsert loop over the
fetched records in order. -/
def fetch_feishu_data_to_first_table (db : List StagingRow) (records : List FetchedRecord) :
    List StagingRow :=
  records.foldl fetch_step (db.filter fun x => starts_with x.manju test_prefix)

/-! ## Per-record step of the file-download task
(`cron_deployment.file_download_task`, lines 164-197)

`update_ok` is the oracle for `update_makevideo_status` completing
without a database exception.  The function returns the processing table
after the step and whether the record was counted in `success_count`
(`false` = counted in `failed_count`). -/

def process_pending_record (dl : Dl) (update_ok : Bool)
    (db : List ProcessingRow) (record : ProcessingRow)
    (zimu_parsed miaoshu_parsed : Option Json) : List ProcessingRow × Bool :=
  let manju := py_strip record.manju
  let submit_time := py_strip record.submit_time
  match download_project_files dl manju submit_time zimu_parsed miaoshu_parsed with
  | .error _ => (db, false)
  | .ok false => (db, false)
  | .ok true =>
    if update_ok then (update_makevideo_status db manju submit_time 1, true)
    else (db, false)

/-! ## Paginated record fetch (`feishu_api.get_bitable_records`, lines 265-316)

The remote server's successive responses are a list: element `k` is the
reply to the `k`-th request the loop issues.  `err` covers both a
transport exception and an API reply with non-zero code (both hit a
`break`). -/

inductive PageResp (α : Type) where
  | ok (items : List α) (has_more : Bool) (page_token : Option String)
  | err

def get_bitable_records_go {α : Type} : List (PageResp α) → List α → List α
  | [], acc => acc
  | r :: rest, acc =>
    match r with
    | .err => acc
    | .ok items has_more _ =>
      if has_more then get_bitable_records_go rest (acc ++ items) else acc ++ items

/-- Embeds `get_bitable_records`: accumulate page items while `has_more` holds;
stop (returning the accumulation so far) on the first error page or the
first page with `has_more = false`. -/
def get_bitable_records {α : Type} (resps : List (PageResp α)) : List α :=
  get_bitable_records_go resps []

/-! ## Bitable URL parsing (`feishu_api.parse_bitable_url`, lines 231-262)

`re.search(r'/base/([a-zA-Z0-9]+)', url)` scans the whole URL string for
the leftmost position where `/base/` is followed by at least one
alphanumeric character and captures the maximal alphanumeric run;
`parse_qs(urlparse(url).query)['table'][0]` takes the first non-blank
`table` field of the query component.  `none` models the raised
`ValueError`. -/

def is_alnum (c : Char) : Bool :=
  ('a' ≤ c && c ≤ 'z') || ('A' ≤ c && c ≤ 'Z') || ('0' ≤ c && c ≤ '9')

def base_marker : List Char := ['/', 'b', 'a', 's', 'e', '/']

/-- Try to match `/base/<alnum+>` at the head of `l`, capturing the
maximal alphanumeric run. -/
def match_base_at (l : List Char) : Option (List Char) :=
  if l.take 6 = base_marker then
    let tok := (l.drop 6).takeWhile is_alnum
    if tok.isEmpty then none else some tok
  else none

/-- Embeds `re.search` for the pattern: leftmost match anywhere in the string. -/
def find_base_token : List Char → Option (List Char)
  | [] => none
  | c :: cs =>
    match match_base_at (c :: cs) with
    | some tok => some tok
    | none => find_base_token cs

/-- Embeds `urlparse(url).query`: the part of the URL after the first `?`,
with the fragment (everything from the first `#`) removed first. -/
def url_query (url : List Char) : List Char :=
  let before_frag := url.takeWhile (· ≠ '#')
  if before_frag.any (· = '?') then (before_frag.dropWhile (· ≠ '?')).drop 1 else []

/-- Embeds `parse_qs` field decomposition (default `keep_blank_values=False`):
split the query on `&`, keep only `key=value` fields with a non-empty
value. -/
def parse_qs_pairs (q : List Char) : List (List Char × List Char) :=
  (q.splitOn '&').filterMap fun field =>
    if field.any (· = '=') then
      let k := field.takeWhile (· ≠ '=')
      let v := (field.dropWhile (· ≠ '=')).drop 1
      if v.isEmpty then none else some (k, v)
    else none

/-- Embeds `parse_bitable_url`: returns `(app_token, table_id)` on success, `none` when
either the regex finds no `/base/<alnum+>` occurrence or the query has
no `table` parameter. -/
def parse_bitable_url (url : List Char) : Option (List Char × List Char) :=
  match find_base_token url with
  | none => none
  | some app_token =>
    match (parse_qs_pairs (url_query url)).lookup ['t', 'a', 'b', 'l', 'e'] with
    | none => none
    | some table_id => some (app_token, table_id)

/-- Modelled from the spec: the *path* component of a URL in the sense
of `urlparse` — the text between the `scheme://host` part and the first
`?` or `#`.  The source has no such definition (its regex scans the
whole URL); this one exists only to state what the claim asserts about
"the path". -/
def spec_url_drop_scheme_host : List Char → List Char
  | [] => []
  | ':' :: '/' :: '/' :: rest => rest.dropWhile (· ≠ '/')
  | _ :: cs => spec_url_drop_scheme_host cs

/-- Modelled from the spec: the URL path (see
`spec_url_drop_scheme_host`). -/
def spec_url_path (url : List Char) : List Char :=
  spec_url_drop_scheme_host ((url.takeWhile (· ≠ '#')).takeWhile (· ≠ '?'))

/-! ## Helper lemmas -/

/-- Folding single-character replacements over a string acts pointwise on
its characters. -/
theorem foldl_py_replace_char (l : List Char) (s : String) :
    l.foldl py_replace_char s
      = String.mk (s.data.map fun c => l.foldl (fun a ch => if a = ch then '_' else a) c) := by
  induction l generalizing s with
  | nil => simp
  | cons ch l ih =>
    rw [List.foldl_cons, ih]
    simp [py_replace_char, List.map_map, Function.comp_def]

/-- Character-level effect of the sanitisation fold. -/
theorem sanitize_char_eq (c : Char) :
    illegal_chars.foldl (fun a ch => if a = ch then '_' else a) c
      = if illegal_chars.contains c then '_' else c := by
  by_cases h1 : c = ':'
  · subst h1; decide
  by_cases h2 : c = '/'
  · subst h2; decide
  by_cases h3 : c = '\\'
  · subst h3; decide
  by_cases h4 : c = '*'
  · subst h4; decide
  by_cases h5 : c = '?'
  · subst h5; decide
  by_cases h6 : c = '"'
  · subst h6; decide
  by_cases h7 : c = '<'
  · subst h7; decide
  by_cases h8 : c = '>'
  · subst h8; decide
  by_cases h9 : c = '|'
  · subst h9; decide
  by_cases h10 : c = ' '
  · subst h10; decide
  simp [illegal_chars, h1, h2, h3, h4, h5, h6, h7, h8, h9, h10]

/-- The download loop over one payload group aggregates the oracle's
results over exactly the well-formed entries, never stopping early. -/
theorem download_group_eq_all (dl : Dl) (folder d : String) (files : List Json) (acc : Bool) :
    files.foldl (attempt_file dl folder d) acc
      = (acc && ((wellformed_entries d files).all fun e => dl folder e.1 e.2)) := by
  induction files generalizing acc with
  | nil => simp [wellformed_entries]
  | cons item files ih =>
    rw [List.foldl_cons, ih]
    cases item with
    | obj kvs =>
      cases hc : ((Json.getKey (.obj kvs) "file_token").getD .null).truthy
          && ((Json.getKey (.obj kvs) "name").getD (.str d)).truthy with
      | true =>
        cases hdl : dl folder ((Json.getKey (.obj kvs) "file_token").getD .null)
            ((Json.getKey (.obj kvs) "name").getD (.str d)) <;>
          simp [attempt_file, wellformed_entries, hc, hdl, Bool.and_assoc]
      | false => simp [attempt_file, wellformed_entries, hc]
    | null => simp [attempt_file, wellformed_entries]
    | bool b => simp [attempt_file, wellformed_entries]
    | num n => simp [attempt_file, wellformed_entries]
    | str s => simp [attempt_file, wellformed_entries]
    | arr xs => simp [attempt_file, wellformed_entries]

/-! ## C1 — folder-name sanitisation -/

/-- C1 (counterexample): sanitising the submission time
`2025/01/01 10:00:00` yields `2025_01_01_10_00_00`, not the directory
segment `2025_01_01 10_00_00` the claim names — the space between date
and time is itself in the replacement set and becomes an underscore. -/
theorem sanitize_submit_time_example_counterexample :
    sanitize_submit_time "2025/01/01 10:00:00" = "2025_01_01_10_00_00"
      ∧ sanitize_submit_time "2025/01/01 10:00:00" ≠ "2025_01_01 10_00_00" := by
  constructor
  · decide
  · decide

/-- C1 (amended): the sanitisation replaces every occurrence of every
character of `{: / \ * ? " < > | space}` with an underscore and leaves
all other characters unchanged; in particular `2025/01/01 10:00:00`
sanitises to `2025_01_01_10_00_00` (the space is replaced too). -/
theorem sanitize_submit_time_spec :
    (∀ s : String, sanitize_submit_time s
        = String.mk (s.data.map fun c => if illegal_chars.contains c then '_' else c))
      ∧ sanitize_submit_time "2025/01/01 10:00:00" = "2025_01_01_10_00_00" := by
  constructor
  · intro s
    rw [sanitize_submit_time, foldl_py_replace_char]
    exact congrArg String.mk (List.map_congr_left fun c _ => sanitize_char_eq c)
  · decide

/-- Aggregate of a download group: the conjunction of the oracle's
results over all well-formed entries of the payload list. -/
theorem download_group_all (dl : Dl) (folder d : String) (files : List Json) :
    download_group dl folder d files
      = (wellformed_entries d files).all fun e => dl folder e.1 e.2 := by
  rw [download_group, download_group_eq_all, Bool.true_and]

/-! ## C5 — per-project aggregate success -/

/-- C5: when `download_project_files` returns a boolean (both payload
iterations succeeded), that boolean is `true` iff every attempted
subtitle-file download succeeded and every attempted description-file
download succeeded; the aggregate ranges over *all* well-formed
`{file_token, name}` entries of both lists, so a failed download never
skips later attempts. -/
theorem download_project_files_true_iff (dl : Dl) (manju submit_time : String)
    (zimu_parsed miaoshu_parsed : Option Json) (b : Bool)
    (h : download_project_files dl manju submit_time zimu_parsed miaoshu_parsed = .ok b) :
    ∃ zimu_files miaoshu_files,
      py_iterate (safe_json_loads zimu_parsed) = .ok zimu_files
      ∧ py_iterate (safe_json_loads miaoshu_parsed) = .ok miaoshu_files
      ∧ (b = true ↔
          ((wellformed_entries "字幕.txt" zimu_files).all fun e =>
              dl (folder_name manju (sanitize_submit_time submit_time)) e.1 e.2) = true
          ∧ ((wellformed_entries "描述词.txt" miaoshu_files).all fun e =>
              dl (folder_name manju (sanitize_submit_time submit_time)) e.1 e.2) = true) := by
  cases hz : py_iterate (safe_json_loads zimu_parsed) with
  | error e =>
    rw [download_project_files] at h
    simp only [hz, bind, Except.bind] at h
    exact Except.noConfusion h
  | ok zimu_files =>
    cases hm : py_iterate (safe_json_loads miaoshu_parsed) with
    | error e =>
      rw [download_project_files] at h
      simp only [hz, hm, bind, Except.bind] at h
      exact Except.noConfusion h
    | ok miaoshu_files =>
      refine ⟨zimu_files, miaoshu_files, rfl, rfl, ?_⟩
      rw [download_project_files] at h
      simp only [hz, hm, bind, Except.bind, pure, Except.pure, Except.ok.injEq] at h
      subst h
      rw [download_group_all, download_group_all, Bool.and_eq_true]

def c5_dl : Dl := fun _ _ _ => false

def c5_zimu : Option Json :=
  some (.arr [.obj [("file_token", .str "tokA"), ("name", .str "a.txt")],
              .obj [("file_token", .str "tokB"), ("name", .str "b.txt")]])

def c5_miaoshu : Option Json :=
  some (.arr [.obj [("file_token", .str "tokC"), ("name", .str "c.txt")]])

/-- C5 (witness): with an always-failing download oracle and two
well-formed subtitle entries plus one description entry, the aggregate
result is `.ok false` and the equivalence holds at that input. -/
theorem download_project_files_true_iff_witness :
    ∃ zimu_files miaoshu_files,
      py_iterate (safe_json_loads c5_zimu) = .ok zimu_files
      ∧ py_iterate (safe_json_loads c5_miaoshu) = .ok miaoshu_files
      ∧ (false = true ↔
          ((wellformed_entries "字幕.txt" zimu_files).all fun e =>
              c5_dl (folder_name "项目" (sanitize_submit_time "2025-01-01 10:00:00")) e.1 e.2) = true
          ∧ ((wellformed_entries "描述词.txt" miaoshu_files).all fun e =>
              c5_dl (folder_name "项目" (sanitize_submit_time "2025-01-01 10:00:00")) e.1 e.2) = true) :=
  download_project_files_true_iff c5_dl "项目" "2025-01-01 10:00:00" c5_zimu c5_miaoshu false rfl

/-! ## C10 — vacuous success on entry-free payloads -/

/-- C10: for a pending row whose two payloads decode to iterables with
no well-formed `{file_token, name}` entries (empty list, malformed JSON,
dict, entry-free list, …), `download_project_files` reports overall
success without attempting any download, and the orchestrator step then
marks every row matching the stripped (title, submission-time) key as
done (`makevideo = 1`) despite writing no artifacts. -/
theorem empty_payload_row_marked_done (dl : Dl) (db : List ProcessingRow)
    (record : ProcessingRow) (zimu_parsed miaoshu_parsed : Option Json)
    (zimu_files miaoshu_files : List Json)
    (hz : py_iterate (safe_json_loads zimu_parsed) = .ok zimu_files)
    (hze : wellformed_entries "字幕.txt" zimu_files = [])
    (hm : py_iterate (safe_json_loads miaoshu_parsed) = .ok miaoshu_files)
    (hme : wellformed_entries "描述词.txt" miaoshu_files = []) :
    download_project_files dl (py_strip record.manju) (py_strip record.submit_time)
        zimu_parsed miaoshu_parsed = .ok true
    ∧ process_pending_record dl true db record zimu_parsed miaoshu_parsed
        = (update_makevideo_status db (py_strip record.manju) (py_strip record.submit_time) 1, true)
    ∧ ∀ s ∈ db, s.manju = py_strip record.manju → s.submit_time = py_strip record.submit_time →
        { s with makevideo := 1 } ∈
          (process_pending_record dl true db record zimu_parsed miaoshu_parsed).1 := by
  have h1 : download_project_files dl (py_strip record.manju) (py_strip record.submit_time)
      zimu_parsed miaoshu_parsed = .ok true := by
    rw [download_project_files]
    simp only [hz, hm, bind, Except.bind, pure, Except.pure]
    rw [download_group_all, download_group_all, hze, hme]
    rfl
  have h2 : process_pending_record dl true db record zimu_parsed miaoshu_parsed
      = (update_makevideo_status db (py_strip record.manju) (py_strip record.submit_time) 1, true) := by
    rw [process_pending_record]
    rw [h1]
    rfl
  refine ⟨h1, h2, ?_⟩
  intro s hs hs1 hs2
  rw [h2]
  have hfs : (fun s : ProcessingRow =>
      if s.manju == py_strip record.manju && s.submit_time == py_strip record.submit_time
      then { s with makevideo := 1 } else s) s = { s with makevideo := 1 } := by
    simp [hs1, hs2]
  rw [update_makevideo_status, ← hfs]
  exact List.mem_map_of_mem _ hs

def c10_row : ProcessingRow :=
  ⟨"not json", "漫剧甲", "{}", "原创", "2025-01-01 10:00:00", 0⟩

/-- C10 (witness): a pending row whose subtitle payload fails to parse
(decoding to `[]`) and whose description payload decodes to an empty
dict is marked done with no file downloaded. -/
theorem empty_payload_row_marked_done_witness :
    download_project_files c5_dl (py_strip c10_row.manju) (py_strip c10_row.submit_time)
        none (some (.obj [])) = .ok true
    ∧ process_pending_record c5_dl true [c10_row] c10_row none (some (.obj []))
        = (update_makevideo_status [c10_row] (py_strip c10_row.manju) (py_strip c10_row.submit_time) 1, true)
    ∧ ∀ s ∈ [c10_row], s.manju = py_strip c10_row.manju → s.submit_time = py_strip c10_row.submit_time →
        { s with makevideo := 1 } ∈
          (process_pending_record c5_dl true [c10_row] c10_row none (some (.obj []))).1 :=
  empty_payload_row_marked_done c5_dl [c10_row] c10_row none (some (.obj []))
    [] [] rfl rfl rfl rfl

/-! ## C2 — unconditional overwrite on the update path -/

/-- Pointwise effect of the update loop on the `j`-th processing row:
rows whose `(类型, 漫剧名称)` key matches no record are untouched; a row
whose key matches some record ends up overwritten by one of its matching
records, with `makevideo` forced to `0` — no payload comparison occurs
anywhere. -/
theorem update_existing_records_get (records : List StagingRow) (db : List ProcessingRow)
    (j : Nat) (s : ProcessingRow) (hjs : db[j]? = some s) :
    ((∀ r ∈ records, ¬(s.leixing = r.leixing ∧ s.manju = r.manju)) →
        (update_existing_records records db)[j]? = some s)
    ∧ ((∃ r ∈ records, s.leixing = r.leixing ∧ s.manju = r.manju) →
        ∃ r ∈ records, s.leixing = r.leixing ∧ s.manju = r.manju ∧
          (update_existing_records records db)[j]? =
            some { s with zimu := safe_value r.zimu, miaoshu := safe_value r.miaoshu,
                          submit_time := r.submit_time, makevideo := 0 }) := by
  induction records generalizing db s with
  | nil =>
    refine ⟨fun _ => hjs, fun hex => ?_⟩
    obtain ⟨r, hr, _⟩ := hex
    exact absurd hr (List.not_mem_nil r)
  | cons r rs ih =>
    have hstep : update_existing_records (r :: rs) db
        = update_existing_records rs (apply_update db r) := rfl
    by_cases hm : s.leixing = r.leixing ∧ s.manju = r.manju
    · have hget : (apply_update db r)[j]?
          = some { s with zimu := safe_value r.zimu, miaoshu := safe_value r.miaoshu,
                          submit_time := r.submit_time, makevideo := 0 } := by
        rw [apply_update, List.getElem?_map, hjs, Option.map_some']
        have hcond : (s.leixing == r.leixing && s.manju == r.manju) = true := by
          simp [hm.1, hm.2]
        rw [if_pos hcond]
      obtain ⟨ihneg, ihpos⟩ := ih (apply_update db r)
        { s with zimu := safe_value r.zimu, miaoshu := safe_value r.miaoshu,
                 submit_time := r.submit_time, makevideo := 0 } hget
      constructor
      · intro hall
        exact absurd hm (hall r (List.mem_cons_self r rs))
      · intro _
        by_cases hrs : ∃ r' ∈ rs, s.leixing = r'.leixing ∧ s.manju = r'.manju
        · obtain ⟨r', hr', hm', heq⟩ := ihpos hrs
          exact ⟨r', List.mem_cons_of_mem r hr', hm', by rw [hstep]; exact heq⟩
        · have heq := ihneg fun r' hr' hmm => hrs ⟨r', hr', hmm⟩
          exact ⟨r, List.mem_cons_self r rs, hm.1, hm.2, by rw [hstep]; exact heq⟩
    · have hget : (apply_update db r)[j]? = some s := by
        rw [apply_update, List.getElem?_map, hjs, Option.map_some']
        have hcond : (s.leixing == r.leixing && s.manju == r.manju) = false := by
          rw [Bool.and_eq_false_iff]
          rcases not_and_or.mp hm with h | h
          · exact Or.inl (beq_eq_false_iff_ne.mpr h)
          · exact Or.inr (beq_eq_false_iff_ne.mpr h)
        rw [if_neg (by simp [hcond])]
      obtain ⟨ihneg, ihpos⟩ := ih (apply_update db r) s hget
      constructor
      · intro hall
        rw [hstep]
        exact ihneg fun r' hr' => hall r' (List.mem_cons_of_mem r hr')
      · intro hex
        obtain ⟨r', hr', hm'⟩ := hex
        rcases List.mem_cons.mp hr' with h | h
        · exact absurd (h ▸ hm') hm
        · obtain ⟨r'', hr'', hm'', heq⟩ := ihpos ⟨r', h, hm'⟩
          exact ⟨r'', List.mem_cons_of_mem r hr'', hm'', by rw [hstep]; exact heq⟩

/-- C2: for a record `r` of the existing-record set that is the unique
matcher of the `j`-th processing row's `(类型, 漫剧名称)` key,
`update_existing_records` overwrites that row's subtitle payload,
description payload and submission time with `r`'s values and
unconditionally resets `makevideo` to `0` — no hypothesis compares the
old and new payloads. -/
theorem update_existing_records_overwrites (records : List StagingRow)
    (db : List ProcessingRow) (j : Nat) (s : ProcessingRow) (r : StagingRow)
    (hjs : db[j]? = some s) (hr : r ∈ records)
    (hmatch : s.leixing = r.leixing ∧ s.manju = r.manju)
    (huniq : ∀ r' ∈ records, (s.leixing = r'.leixing ∧ s.manju = r'.manju) → r' = r) :
    (update_existing_records records db)[j]? =
      some { s with zimu := safe_value r.zimu, miaoshu := safe_value r.miaoshu,
                    submit_time := r.submit_time, makevideo := 0 } := by
  obtain ⟨r', hr', h1, h2, heq⟩ :=
    (update_existing_records_get records db j s hjs).2 ⟨r, hr, hmatch⟩
  rwa [huniq r' hr' ⟨h1, h2⟩] at heq

def c2_record : StagingRow :=
  ⟨some "[new zimu]", "漫剧乙", some "[new miaoshu]", "类别B", "2025-02-02 08:00:00"⟩

def c2_row : ProcessingRow :=
  ⟨"[old zimu]", "漫剧乙", "[old miaoshu]", "类别B", "2024-01-01 00:00:00", 1⟩

/-- C2 (witness): a completed row (`makevideo = 1`) whose key matches the
single existing-record is overwritten and reset to pending. -/
theorem update_existing_records_overwrites_witness :
    (update_existing_records [c2_record] [c2_row])[0]? =
      some { c2_row with zimu := safe_value c2_record.zimu,
                         miaoshu := safe_value c2_record.miaoshu,
                         submit_time := c2_record.submit_time, makevideo := 0 } :=
  update_existing_records_overwrites [c2_record] [c2_row] 0 c2_row c2_record rfl
    (List.mem_cons_self c2_record []) ⟨rfl, rfl⟩ (by decide)

/-! ## C3 — completion-flag update keyed by stripped (title, time) -/

/-- C3 (amended): when `download_project_files` reports overall success
and the status update raises no exception, the orchestrator step runs
the `makevideo = 1` update keyed *only* by the record's whitespace-
stripped title and submission time — every processing row whose stored
title and time equal those stripped values is marked done, regardless of
its `类型` (category); rows not matching are untouched.  On a download
failure, a download exception, or a status-update failure, the table is
unchanged and the record is counted as failed. -/
theorem process_pending_record_spec (dl : Dl) (update_ok : Bool)
    (db : List ProcessingRow) (record : ProcessingRow) (z m : Option Json) :
    (download_project_files dl (py_strip record.manju) (py_strip record.submit_time) z m = .ok true →
      update_ok = true →
      process_pending_record dl update_ok db record z m
        = (update_makevideo_status db (py_strip record.manju) (py_strip record.submit_time) 1, true)
      ∧ ∀ (j : Nat) (s : ProcessingRow), db[j]? = some s →
          ((s.manju = py_strip record.manju ∧ s.submit_time = py_strip record.submit_time) →
            (update_makevideo_status db (py_strip record.manju) (py_strip record.submit_time) 1)[j]?
              = some { s with makevideo := 1 })
          ∧ (¬(s.manju = py_strip record.manju ∧ s.submit_time = py_strip record.submit_time) →
            (update_makevideo_status db (py_strip record.manju) (py_strip record.submit_time) 1)[j]?
              = some s))
    ∧ (download_project_files dl (py_strip record.manju) (py_strip record.submit_time) z m = .ok false →
        process_pending_record dl update_ok db record z m = (db, false))
    ∧ (download_project_files dl (py_strip record.manju) (py_strip record.submit_time) z m = .error () →
        process_pending_record dl update_ok db record z m = (db, false))
    ∧ (update_ok = false → process_pending_record dl update_ok db record z m = (db, false)) := by
  refine ⟨?_, ?_, ?_, ?_⟩
  · intro hd hu
    subst hu
    constructor
    · rw [process_pending_record, hd]
      rfl
    · intro j s hjs
      constructor
      · intro hmm
        rw [update_makevideo_status, List.getElem?_map, hjs, Option.map_some']
        have hcond : (s.manju == py_strip record.manju
            && s.submit_time == py_strip record.submit_time) = true := by
          simp [hmm.1, hmm.2]
        rw [if_pos hcond]
      · intro hne
        rw [update_makevideo_status, List.getElem?_map, hjs, Option.map_some']
        have hcond : (s.manju == py_strip record.manju
            && s.submit_time == py_strip record.submit_time) = false := by
          rw [Bool.and_eq_false_iff]
          rcases not_and_or.mp hne with h | h
          · exact Or.inl (beq_eq_false_iff_ne.mpr h)
          · exact Or.inr (beq_eq_false_iff_ne.mpr h)
        rw [if_neg (by simp [hcond])]
  · intro hd
    rw [process_pending_record, hd]
  · intro hd
    rw [process_pending_record, hd]
  · intro hu
    subst hu
    rw [process_pending_record]
    cases hd : download_project_files dl (py_strip record.manju) (py_strip record.submit_time) z m with
    | error e => rfl
    | ok b => cases b with
      | false => rfl
      | true => rfl

def c3_dl : Dl := fun _ _ _ => true

def c3_row : ProcessingRow :=
  ⟨"[]", " 漫剧丙", "[]", "原创", "2025-01-01 10:00:00", 0⟩

/-- C3 (counterexample): a pending row whose stored title has a leading
space.  `download_project_files` reports overall success and the status
update raises no exception, yet the update — issued with the *stripped*
title — matches no row: the processing table is unchanged, the row's
completion flag stays `0`, and the record is even counted as a success.
The claim's "sets that row's completion flag to 1" fails. -/
theorem process_pending_record_counterexample :
    download_project_files c3_dl (py_strip c3_row.manju) (py_strip c3_row.submit_time)
        (some (.arr [])) (some (.arr [])) = .ok true
    ∧ process_pending_record c3_dl true [c3_row] c3_row (some (.arr [])) (some (.arr []))
        = ([c3_row], true)
    ∧ c3_row.makevideo = 0 :=
  ⟨rfl, rfl, rfl⟩

def c3w_record : ProcessingRow :=
  ⟨"[]", "漫剧丁", "[]", "原创", "2025-03-03 09:00:00", 0⟩

def c3w_other : ProcessingRow :=
  ⟨"z", "漫剧丁", "m", "改编", "2025-03-03 09:00:00", 0⟩

/-- C3 (witness): on success the update is applied, and a row sharing
only the (title, submission-time) pair — with a *different* category —
is marked done, exhibiting the narrower-than-natural-key keying. -/
theorem process_pending_record_spec_witness :
    process_pending_record c3_dl true [c3w_other] c3w_record (some (.arr [])) (some (.arr []))
      = (update_makevideo_status [c3w_other]
          (py_strip c3w_record.manju) (py_strip c3w_record.submit_time) 1, true)
    ∧ (update_makevideo_status [c3w_other]
          (py_strip c3w_record.manju) (py_strip c3w_record.submit_time) 1)[0]?
      = some { c3w_other with makevideo := 1 } :=
  ⟨((process_pending_record_spec c3_dl true [c3w_other] c3w_record
      (some (.arr [])) (some (.arr []))).1 rfl rfl).1,
   ((((process_pending_record_spec c3_dl true [c3w_other] c3w_record
      (some (.arr [])) (some (.arr []))).1 rfl rfl).2 0 c3w_other rfl).1) ⟨rfl, rfl⟩⟩

/-! ## Ordering facts for the `ORDER BY` relation -/

theorem chars_le_total (a b : List Char) : chars_le a b = true ∨ chars_le b a = true := by
  induction a generalizing b with
  | nil => exact Or.inl rfl
  | cons x xs ih =>
    cases b with
    | nil => exact Or.inr rfl
    | cons y ys =>
      by_cases hxy : x = y
      · subst hxy
        rcases ih ys with h | h
        · exact Or.inl (by simp only [chars_le, if_pos rfl]; exact h)
        · exact Or.inr (by simp only [chars_le, if_pos rfl]; exact h)
      · rcases lt_trichotomy x y with h | h | h
        · exact Or.inl (by simp only [chars_le, if_neg hxy]; exact decide_eq_true h)
        · exact absurd h hxy
        · exact Or.inr (by simp only [chars_le, if_neg (Ne.symm hxy)]; exact decide_eq_true h)

theorem chars_le_trans (a b c : List Char)
    (h1 : chars_le a b = true) (h2 : chars_le b c = true) : chars_le a c = true := by
  induction a generalizing b c with
  | nil => rfl
  | cons x xs ih =>
    cases b with
    | nil => exact absurd h1 (by simp [chars_le])
    | cons y ys =>
      cases c with
      | nil => exact absurd h2 (by simp [chars_le])
      | cons z zs =>
        simp only [chars_le] at h1 h2 ⊢
        by_cases hxy : x = y
        · subst hxy
          rw [if_pos rfl] at h1
          by_cases hxz : x = z
          · subst hxz
            rw [if_pos rfl] at h2 ⊢
            exact ih ys zs h1 h2
          · rw [if_neg hxz] at h2 ⊢
            exact h2
        · rw [if_neg hxy] at h1
          have hlt1 : x < y := of_decide_eq_true h1
          by_cases hyz : y = z
          · subst hyz
            rw [if_neg hxy]
            exact decide_eq_true hlt1
          · rw [if_neg hyz] at h2
            have hlt2 : y < z := of_decide_eq_true h2
            have hxz : x < z := lt_trans hlt1 hlt2
            rw [if_neg (ne_of_lt hxz)]
            exact decide_eq_true hxz

instance : IsTotal StagingRow desc_by_time :=
  ⟨fun a b => chars_le_total b.submit_time.data a.submit_time.data⟩

instance : IsTrans StagingRow desc_by_time :=
  ⟨fun _ _ _ h1 h2 => chars_le_trans _ _ _ h2 h1⟩

/-! ## C4 — new-record selection -/

/-- C4: the new-record selection returns at most `limit` rows, sorted by
submission timestamp descending, and every returned row comes from the
staging table, has non-empty trimmed subtitle and description payloads,
and has no `(类型, 漫剧名称)` match in the processing table.  (The
orchestrator invokes it with the default cap `limit = 2`.) -/
theorem get_new_records_spec (first : List StagingRow) (second : List ProcessingRow)
    (limit : Nat) :
    (get_new_records_from_first_table first second limit).length ≤ limit
    ∧ List.Sorted desc_by_time (get_new_records_from_first_table first second limit)
    ∧ ∀ r ∈ get_new_records_from_first_table first second limit,
        r ∈ first ∧ payload_nonempty r.zimu = true ∧ payload_nonempty r.miaoshu = true
          ∧ ∀ s ∈ second, key_match r s = false := by
  refine ⟨List.length_take_le _ _, ?_, ?_⟩
  · exact List.Pairwise.sublist (List.take_sublist _ _)
      (List.sorted_insertionSort desc_by_time _)
  · intro r hr
    have h1 : r ∈ List.insertionSort desc_by_time (first.filter fun f =>
        payload_nonempty f.zimu && payload_nonempty f.miaoshu
          && !(second.any fun s => key_match f s)) :=
      (List.take_sublist _ _).mem hr
    have h2 := (List.perm_insertionSort desc_by_time _).mem_iff.mp h1
    obtain ⟨hmem, hcond⟩ := List.mem_filter.mp h2
    rw [Bool.and_eq_true, Bool.and_eq_true] at hcond
    obtain ⟨⟨hz, hm⟩, hany⟩ := hcond
    rw [Bool.not_eq_eq_eq_not, Bool.not_true] at hany
    exact ⟨hmem, hz, hm, fun s hs => Bool.eq_false_iff.mpr (List.any_eq_false.mp hany s hs)⟩

def c4_rowA : StagingRow := ⟨some "z1", "剧A", some "m1", "男频", "2025-01-03 00:00:00"⟩

def c4_first : List StagingRow :=
  [c4_rowA,
   ⟨some "z2", "剧B", some "m2", "女频", "2025-01-02 00:00:00"⟩,
   ⟨some "z3", "剧C", some "m3", "男频", "2025-01-01 00:00:00"⟩,
   ⟨some "z4", "剧D", some "m4", "男频", "2025-01-04 00:00:00"⟩]

def c4_second : List ProcessingRow :=
  [⟨"z4", "剧D", "m4", "男频", "2025-01-04 00:00:00", 1⟩]

/-- C4 (witness): four staging rows, one already in processing; the cap
2 applies to the three qualifying rows, and the most recent qualifying
row is returned with the guaranteed properties. -/
theorem get_new_records_spec_witness :
    (get_new_records_from_first_table c4_first c4_second 2).length ≤ 2
    ∧ List.Sorted desc_by_time (get_new_records_from_first_table c4_first c4_second 2)
    ∧ (c4_rowA ∈ c4_first ∧ payload_nonempty c4_rowA.zimu = true
        ∧ payload_nonempty c4_rowA.miaoshu = true
        ∧ ∀ s ∈ c4_second, key_match c4_rowA s = false) :=
  ⟨(get_new_records_spec c4_first c4_second 2).1,
   (get_new_records_spec c4_first c4_second 2).2.1,
   (get_new_records_spec c4_first c4_second 2).2.2 c4_rowA (by decide)⟩

/-! ## C8 — exclusion of empty payloads from reconciliation -/

/-- MySQL `TRIM` of an all-space string is empty. -/
theorem mysql_trim_all_spaces (s : String) (h : ∀ c ∈ s.data, c = ' ') :
    mysql_trim s = "" := by
  rw [mysql_trim]
  have h1 : s.data.dropWhile (· = ' ') = [] :=
    List.dropWhile_eq_nil_iff.mpr fun x hx => decide_eq_true (h x hx)
  rw [h1]
  rfl

/-- A NULL or all-space payload fails the `TRIM(col) != '' AND col IS
NOT NULL` filter. -/
theorem payload_nonempty_false (o : Option String)
    (h : o = none ∨ ∃ s, o = some s ∧ ∀ c ∈ s.data, c = ' ') :
    payload_nonempty o = false := by
  rcases h with h | ⟨s, rfl, hs⟩
  · rw [h]
    rfl
  · simp [payload_nonempty, mysql_trim_all_spaces s hs]

/-- C8 (amended): a staging row whose subtitle or description payload is
NULL, empty, or consists only of *space* characters is excluded from
both the new-record selection and the existing-record selection.  (MySQL
`TRIM` strips spaces only, so other whitespace such as a tab does not
qualify — see the counterexample.) -/
theorem empty_payload_excluded (first : List StagingRow) (second : List ProcessingRow)
    (limit : Nat) (f : StagingRow)
    (h : (f.zimu = none ∨ ∃ s, f.zimu = some s ∧ ∀ c ∈ s.data, c = ' ')
       ∨ (f.miaoshu = none ∨ ∃ s, f.miaoshu = some s ∧ ∀ c ∈ s.data, c = ' ')) :
    f ∉ get_new_records_from_first_table first second limit
    ∧ f ∉ get_existing_records_from_first_table first second := by
  have hfalse : payload_nonempty f.zimu = false ∨ payload_nonempty f.miaoshu = false :=
    h.imp (payload_nonempty_false _) (payload_nonempty_false _)
  constructor
  · intro hf
    have h1 : f ∈ List.insertionSort desc_by_time (first.filter fun g =>
        payload_nonempty g.zimu && payload_nonempty g.miaoshu
          && !(second.any fun s => key_match g s)) :=
      (List.take_sublist _ _).mem hf
    have h2 := (List.perm_insertionSort desc_by_time _).mem_iff.mp h1
    obtain ⟨-, hcond⟩ := List.mem_filter.mp h2
    rw [Bool.and_eq_true, Bool.and_eq_true] at hcond
    obtain ⟨⟨hz, hm⟩, -⟩ := hcond
    rcases hfalse with hh | hh
    · rw [hh] at hz
      exact Bool.false_ne_true hz
    · rw [hh] at hm
      exact Bool.false_ne_true hm
  · intro hf
    have h1 := (List.perm_insertionSort desc_by_time _).mem_iff.mp hf
    obtain ⟨a, ha, hfa⟩ := List.mem_flatMap.mp h1
    obtain ⟨-, -, hfeq⟩ := List.mem_map.mp hfa
    rw [hfeq] at ha
    obtain ⟨-, hcond⟩ := List.mem_filter.mp ha
    rw [Bool.and_eq_true] at hcond
    obtain ⟨hz, hm⟩ := hcond
    rcases hfalse with hh | hh
    · rw [hh] at hz
      exact Bool.false_ne_true hz
    · rw [hh] at hm
      exact Bool.false_ne_true hm

def c8_tab_row : StagingRow :=
  ⟨some "\t", "漫剧戊", some "[desc]", "原创", "2025-01-01 00:00:00"⟩

def c8_proc_row : ProcessingRow :=
  ⟨"x", "漫剧戊", "y", "原创", "2024-12-31 00:00:00", 1⟩

/-- C8 (counterexample): a staging row whose subtitle payload is a
single tab — whitespace-only — passes `TRIM(col) != ''` (MySQL `TRIM`
strips spaces only) and is returned by *both* selections, contradicting
the claim that whitespace-only payloads are excluded. -/
theorem whitespace_only_payload_included_counterexample :
    (∀ c ∈ "\t".data, c.isWhitespace = true)
    ∧ c8_tab_row ∈ get_new_records_from_first_table [c8_tab_row] [] 2
    ∧ c8_tab_row ∈ get_existing_records_from_first_table [c8_tab_row] [c8_proc_row] := by
  decide

def c8_space_row : StagingRow :=
  ⟨some "   ", "漫剧己", some "m", "原创", "2025-01-01 00:00:00"⟩

/-- C8 (witness): a staging row whose subtitle payload is three spaces
is excluded from both selections. -/
theorem empty_payload_excluded_witness :
    c8_space_row ∉ get_new_records_from_first_table [c8_space_row] [] 2
    ∧ c8_space_row ∉ get_existing_records_from_first_table [c8_space_row] [] :=
  empty_payload_excluded [c8_space_row] [] 2 c8_space_row
    (Or.inl (Or.inr ⟨"   ", rfl, by decide⟩))

/-! ## C6 — paginated record fetch -/

theorem get_bitable_records_go_append {α : Type} (ps : List (List α × Option String))
    (l : List (PageResp α)) (acc : List α) :
    get_bitable_records_go ((ps.map fun p => PageResp.ok p.1 true p.2) ++ l) acc
      = get_bitable_records_go l (acc ++ (ps.map Prod.fst).flatten) := by
  induction ps generalizing acc with
  | nil => simp
  | cons p ps ih =>
    rw [List.map_cons, List.cons_append]
    show get_bitable_records_go ((ps.map fun p => PageResp.ok p.1 true p.2) ++ l) (acc ++ p.1)
      = get_bitable_records_go l (acc ++ ((p :: ps).map Prod.fst).flatten)
    rw [ih, List.map_cons, List.flatten_cons, List.append_assoc]

/-- C6: the pagination loop follows `has_more` pages in order.  Given any
run of `has_more = true` pages followed by a `has_more = false` page, it
returns the concatenation of all the pages' items in fetch order (later
responses are never requested); given a run of `has_more = true` pages
followed by an error response (transport failure or non-zero API code),
it stops and returns exactly the items accumulated so far. -/
theorem get_bitable_records_spec {α : Type} (ps : List (List α × Option String))
    (last_items : List α) (tok : Option String) (rest : List (PageResp α)) :
    get_bitable_records ((ps.map fun p => PageResp.ok p.1 true p.2)
        ++ PageResp.ok last_items false tok :: rest)
      = (ps.map Prod.fst).flatten ++ last_items
    ∧ get_bitable_records ((ps.map fun p => PageResp.ok p.1 true p.2) ++ PageResp.err :: rest)
      = (ps.map Prod.fst).flatten := by
  constructor
  · rw [get_bitable_records, get_bitable_records_go_append]
    rfl
  · rw [get_bitable_records, get_bitable_records_go_append]
    rfl

/-! ## C7 — staging full refresh -/

/-- Pointwise effect of one staging upsert: a row whose `(类型, 漫剧名称)`
key matches the fetched record has its payload, category and
submission-time fields overwritten; other rows are untouched. -/
theorem upsert_staging_get (r : FetchedRecord) (db2 : List StagingRow) (j : Nat)
    (s : StagingRow) (hjs : db2[j]? = some s) :
    ((s.leixing = r.leixing ∧ s.manju = r.manju) →
        (upsert_staging db2 r)[j]? =
          some { s with zimu := some r.zimu, miaoshu := some r.miaoshu,
                        leixing := r.leixing, submit_time := r.submit_time })
    ∧ (¬(s.leixing = r.leixing ∧ s.manju = r.manju) →
        (upsert_staging db2 r)[j]? = some s) := by
  constructor
  · intro hm
    have hmem : s ∈ db2 := by
      obtain ⟨hlt, hget⟩ := List.getElem?_eq_some_iff.mp hjs
      exact hget ▸ List.getElem_mem hlt
    have hany : (db2.any fun x => x.leixing == r.leixing && x.manju == r.manju) = true :=
      List.any_eq_true.mpr ⟨s, hmem, by simp [hm.1, hm.2]⟩
    rw [upsert_staging, if_pos hany, List.getElem?_map, hjs, Option.map_some']
    have hcond : (s.leixing == r.leixing && s.manju == r.manju) = true := by
      simp [hm.1, hm.2]
    rw [if_pos hcond]
  · intro hm
    have hcond : (s.leixing == r.leixing && s.manju == r.manju) = false := by
      rw [Bool.and_eq_false_iff]
      rcases not_and_or.mp hm with h | h
      · exact Or.inl (beq_eq_false_iff_ne.mpr h)
      · exact Or.inr (beq_eq_false_iff_ne.mpr h)
    by_cases hany : (db2.any fun x => x.leixing == r.leixing && x.manju == r.manju) = true
    · rw [upsert_staging, if_pos hany, List.getElem?_map, hjs, Option.map_some',
        if_neg (by simp [hcond])]
    · rw [upsert_staging, if_neg hany, List.getElem?_append,
        if_pos (List.getElem?_eq_some_iff.mp hjs).1]
      exact hjs

/-- C7: the full refresh first deletes every staging row whose title
does not start with the test-fixture prefix, then folds the fetched
records in order: a record missing its title, subtitle payload or
description payload (extracted as `""`) is skipped without failing; a
complete record is upserted by the `(类型, 漫剧名称)` natural key —
appended when the key is absent, otherwise overwriting the subtitle,
description, category and submission-time fields of the matching row
(see `upsert_staging_get`). -/
theorem fetch_feishu_data_spec (db : List StagingRow) (records : List FetchedRecord)
    (r : FetchedRecord) :
    fetch_feishu_data_to_first_table db []
        = db.filter (fun x => starts_with x.manju test_prefix)
    ∧ ((r.manju = "" ∨ r.zimu = "" ∨ r.miaoshu = "") →
        fetch_feishu_data_to_first_table db (records ++ [r])
          = fetch_feishu_data_to_first_table db records)
    ∧ (r.manju ≠ "" → r.zimu ≠ "" → r.miaoshu ≠ "" →
        fetch_feishu_data_to_first_table db (records ++ [r])
          = upsert_staging (fetch_feishu_data_to_first_table db records) r)
    ∧ ((∀ x ∈ fetch_feishu_data_to_first_table db records,
          ¬(x.leixing = r.leixing ∧ x.manju = r.manju)) →
        upsert_staging (fetch_feishu_data_to_first_table db records) r
          = fetch_feishu_data_to_first_table db records
              ++ [⟨some r.zimu, r.manju, some r.miaoshu, r.leixing, r.submit_time⟩]) := by
  have hsplit : fetch_feishu_data_to_first_table db (records ++ [r])
      = fetch_step (fetch_feishu_data_to_first_table db records) r := by
    rw [fetch_feishu_data_to_first_table, fetch_feishu_data_to_first_table, List.foldl_append]
    rfl
  refine ⟨rfl, ?_, ?_, ?_⟩
  · intro hbad
    have hcond : (r.manju == "" || r.zimu == "" || r.miaoshu == "") = true := by
      rcases hbad with h | h | h <;> simp [h]
    rw [hsplit, fetch_step, if_pos hcond]
  · intro h1 h2 h3
    have hcond : (r.manju == "" || r.zimu == "" || r.miaoshu == "") = false := by
      simp [h1, h2, h3]
    rw [hsplit, fetch_step, if_neg (by simp [hcond])]
  · intro hall
    have hany : ¬((fetch_feishu_data_to_first_table db records).any
        fun x => x.leixing == r.leixing && x.manju == r.manju) = true := by
      intro hc
      obtain ⟨x, hx, hxc⟩ := List.any_eq_true.mp hc
      rw [Bool.and_eq_true, beq_iff_eq, beq_iff_eq] at hxc
      exact hall x hx hxc
    rw [upsert_staging, if_neg hany]

def c7_db : List StagingRow :=
  [⟨some "a", "测试漫剧1", some "b", "原创", "2025-01-01 10:00:00"⟩,
   ⟨some "c", "普通剧", some "d", "原创", "2025-01-02 10:00:00"⟩]

def c7_bad : FetchedRecord := ⟨"", "无字幕剧", "x", "原创", "2025-01-03 10:00:00"⟩

def c7_good : FetchedRecord := ⟨"z", "新剧", "m", "女频", "2025-01-04 10:00:00"⟩

/-- C7 (witness): the delete phase keeps only the test-fixture row; a
record with an empty subtitle payload is skipped; a complete record with
a fresh key is appended. -/
theorem fetch_feishu_data_spec_witness :
    fetch_feishu_data_to_first_table c7_db []
        = c7_db.filter (fun x => starts_with x.manju test_prefix)
    ∧ fetch_feishu_data_to_first_table c7_db ([] ++ [c7_bad])
        = fetch_feishu_data_to_first_table c7_db []
    ∧ fetch_feishu_data_to_first_table c7_db ([] ++ [c7_good])
        = upsert_staging (fetch_feishu_data_to_first_table c7_db []) c7_good
    ∧ upsert_staging (fetch_feishu_data_to_first_table c7_db []) c7_good
        = fetch_feishu_data_to_first_table c7_db []
            ++ [⟨some c7_good.zimu, c7_good.manju, some c7_good.miaoshu,
                 c7_good.leixing, c7_good.submit_time⟩] :=
  ⟨(fetch_feishu_data_spec c7_db [] c7_bad).1,
   (fetch_feishu_data_spec c7_db [] c7_bad).2.1 (Or.inr (Or.inl rfl)),
   (fetch_feishu_data_spec c7_db [] c7_good).2.2.1 (by decide) (by decide) (by decide),
   (fetch_feishu_data_spec c7_db [] c7_good).2.2.2 (by decide)⟩

/-! ## C9 — bitable URL parsing -/

/-- Soundness of the regex search: a returned token is a non-empty
alphanumeric run that occurs somewhere in the scanned string directly
after `/base/`. -/
theorem find_base_token_sound (l : List Char) (tok : List Char)
    (h : find_base_token l = some tok) :
    tok ≠ [] ∧ tok.all is_alnum = true
    ∧ ∃ i, (l.drop i).take (6 + tok.length) = base_marker ++ tok := by
  induction l with
  | nil => exact absurd h (by rw [find_base_token]; exact Option.noConfusion)
  | cons c cs ih =>
    rw [find_base_token] at h
    cases hm : match_base_at (c :: cs) with
    | some t =>
      rw [hm] at h
      have ht : t = tok := Option.some.inj h
      subst ht
      rw [match_base_at] at hm
      by_cases h6 : (c :: cs).take 6 = base_marker
      · rw [if_pos h6] at hm
        by_cases he : (((c :: cs).drop 6).takeWhile is_alnum).isEmpty = true
        · rw [if_pos he] at hm
          exact absurd hm Option.noConfusion
        · rw [if_neg he] at hm
          have htok : ((c :: cs).drop 6).takeWhile is_alnum = t := Option.some.inj hm
          refine ⟨?_, ?_, 0, ?_⟩
          · intro hnil
            exact he (by rw [htok, hnil]; rfl)
          · exact List.all_eq_true.mpr fun x hx => List.mem_takeWhile_imp (htok ▸ hx)
          · rw [List.drop_zero, List.take_add, h6]
            have hpre : t <+: (c :: cs).drop 6 := htok ▸ List.takeWhile_prefix is_alnum
            rw [← List.prefix_iff_eq_take.mp hpre]
      · rw [if_neg h6] at hm
        exact absurd hm Option.noConfusion
    | none =>
      rw [hm] at h
      obtain ⟨h1, h2, i, h3⟩ := ih h
      exact ⟨h1, h2, i + 1, by rw [List.drop_succ_cons]; exact h3⟩

/-- C9 (amended): `parse_bitable_url` succeeds exactly when the regex
finds `/base/<alnum+>` somewhere in the *whole URL string* (not only its
path component) and the query has a non-blank `table` parameter; on
success the returned base identifier is a non-empty alphanumeric run
occurring right after some `/base/` in the URL, and the table identifier
is the first `table` value.  It fails (raises) iff the regex finds no
occurrence or the `table` parameter is absent. -/
theorem parse_bitable_url_spec (url : List Char) (tok tbl : List Char) :
    (parse_bitable_url url = some (tok, tbl) →
      tok ≠ [] ∧ tok.all is_alnum = true
      ∧ (∃ i, (url.drop i).take (6 + tok.length) = base_marker ++ tok)
      ∧ (parse_qs_pairs (url_query url)).lookup ['t', 'a', 'b', 'l', 'e'] = some tbl)
    ∧ (parse_bitable_url url = none ↔
        find_base_token url = none
        ∨ (parse_qs_pairs (url_query url)).lookup ['t', 'a', 'b', 'l', 'e'] = none) := by
  constructor
  · intro h
    rw [parse_bitable_url] at h
    cases hf : find_base_token url with
    | none =>
      rw [hf] at h
      exact absurd h Option.noConfusion
    | some t =>
      rw [hf] at h
      cases hl : (parse_qs_pairs (url_query url)).lookup ['t', 'a', 'b', 'l', 'e'] with
      | none =>
        rw [hl] at h
        exact absurd h Option.noConfusion
      | some v =>
        rw [hl] at h
        have hp : (t, v) = (tok, tbl) := Option.some.inj h
        have ht : t = tok := congrArg Prod.fst hp
        have hv : v = tbl := congrArg Prod.snd hp
        subst ht
        subst hv
        obtain ⟨h1, h2, h3⟩ := find_base_token_sound url t hf
        exact ⟨h1, h2, h3, rfl⟩
  · constructor
    · intro h
      rw [parse_bitable_url] at h
      cases hf : find_base_token url with
      | none => exact Or.inl rfl
      | some t =>
        rw [hf] at h
        cases hl : (parse_qs_pairs (url_query url)).lookup ['t', 'a', 'b', 'l', 'e'] with
        | none => exact Or.inr rfl
        | some v =>
          rw [hl] at h
          exact absurd h Option.noConfusion
    · intro h
      rw [parse_bitable_url]
      rcases h with h | h
      · rw [h]
      · cases hf : find_base_token url with
        | none => rfl
        | some t => rw [h]

def c9_query_url : List Char :=
  "https://example.com/home?table=tbl&next=/base/Abc123".data

/-- C9 (counterexample): a URL whose *path* (`/home`) contains no
`/base/<alnum+>` segment — the pattern occurs only inside a query
parameter value — yet parsing succeeds, returning the token found in the
query string.  The claim's "fails whenever the `/base/<alnum+>` path
segment is absent" is false: the regex scans the whole URL, not the
path. -/
theorem parse_bitable_url_path_counterexample :
    spec_url_path c9_query_url = "/home".data
    ∧ find_base_token (spec_url_path c9_query_url) = none
    ∧ parse_bitable_url c9_query_url = some ("Abc123".data, "tbl".data) := by
  refine ⟨?_, ?_, ?_⟩
  · decide
  · decide
  · decide

def c9_good_url : List Char :=
  "https://xx.feishu.cn/base/AppTok123?table=tblXYZ&view=v1".data

/-- C9 (witness): a well-formed bitable URL parses to its path-embedded
base token and its `table` query parameter, with the guaranteed
properties. -/
theorem parse_bitable_url_spec_witness :
    "AppTok123".data ≠ [] ∧ "AppTok123".data.all is_alnum = true
    ∧ (∃ i, (c9_good_url.drop i).take (6 + "AppTok123".data.length)
        = base_marker ++ "AppTok123".data)
    ∧ (parse_qs_pairs (url_query c9_good_url)).lookup ['t', 'a', 'b', 'l', 'e']
        = some "tblXYZ".data :=
  (parse_bitable_url_spec c9_good_url "AppTok123".data "tblXYZ".data).1 rfl

end Feishu
